import Mathlib

/-!
# Verification of the httpctx request-processing core

A shallow embedding, in Lean 4, of the core of the `httpctx` Go package:

* content negotiation for error rendering (`shouldSendJSON`, source
  `part_011`),
* the error renderer (`sendError`, source `part_011`),
* the immutable middleware stack (`Stack`, `Use`, `Stack.Use`,
  `Stack.Handle`, `Context`, source `part_008`),
* the cancellation scope produced by `newContext` (source `part_008`),
  modelled as a monotone done-signal state machine.

Go byte strings are modelled as Lean `String`s; all concrete inputs of the
spec are ASCII, where the two notions of length coincide, and byte length is
taken with `String.utf8ByteSize` where it matters (Content-Length).
-/

namespace Httpctx

/-- Substring search on character lists: `containsSub hay needle` holds iff
`needle` occurs contiguously in `hay`.  Executable model of Go
`strings.Contains`. -/
def containsSub : List Char → List Char → Bool
  | hay, needle =>
    if needle.isPrefixOf hay then true
    else
      match hay with
      | [] => false
      | _ :: t => containsSub t needle

/-- An HTTP request, reduced to the two fields `shouldSendJSON` and
`sendError` consult: the value of `r.Header.Get("Accept")` and `r.URL.Path`. -/
structure Request where
  accept : String
  path : String
deriving DecidableEq, Repr

/-- Go `shouldSendJSON` (`part_011`): send JSON iff the Accept header
contains the substring `"application/json"`, or the URL path has the prefix
`"/api/"`. -/
def shouldSendJSON (r : Request) : Bool :=
  containsSub r.accept.data "application/json".data ||
    "/api/".data.isPrefixOf r.path.data

theorem isPrefixOf_eq_true_iff {l₁ l₂ : List Char} :
    l₁.isPrefixOf l₂ = true ↔ l₁ <+: l₂ := by
  induction l₁ generalizing l₂ with
  | nil => simp [List.isPrefixOf]
  | cons a t ih =>
    cases l₂ with
    | nil => simp [List.isPrefixOf]
    | cons b t₂ =>
      simp only [List.isPrefixOf, Bool.and_eq_true, beq_iff_eq, List.cons_prefix_cons, ih]

theorem containsSub_iff_occurs {hay needle : List Char} :
    containsSub hay needle = true ↔ needle <:+: hay := by
  induction hay with
  | nil =>
    rw [containsSub]
    cases needle with
    | nil => simp [List.isPrefixOf]
    | cons a t => simp [List.isPrefixOf]
  | cons b t ih =>
    rw [containsSub]
    by_cases h : needle.isPrefixOf (b :: t) = true
    · simp only [h, if_true, true_iff]
      exact (isPrefixOf_eq_true_iff.mp h).isInfix
    · simp only [h, if_false, Bool.false_eq_true, ih]
      constructor
      · rintro ⟨s, e, rfl⟩
        exact ⟨b :: s, e, rfl⟩
      · intro hinf
        rcases hinf with ⟨s, e, hse⟩
        cases s with
        | nil =>
          exfalso
          exact h (isPrefixOf_eq_true_iff.mpr ⟨e, by simpa using hse⟩)
        | cons x s' =>
          refine ⟨s', e, ?_⟩
          simpa using congrArg List.tail hse

/-- A Go `error` value as `sendError` sees it, after capability probing:
`message` is the result of `err.Error()`; `statusCodeCap = some v` iff the
dynamic type implements `StatusCode() int` and that method returns `v`;
`codeCap = some s` iff it implements `Code() string` returning `s`. -/
structure ErrValue where
  message : String
  statusCodeCap : Option Int
  codeCap : Option String
deriving DecidableEq, Repr

/-- The status code `sendError` settles on (`part_011` lines 30-37):
default 500; if the error exposes `StatusCode()` and its value is non-zero,
use that value. -/
def errStatusCode (e : ErrValue) : Int :=
  match e.statusCodeCap with
  | none => 500
  | some v => if v ≠ 0 then v else 500

/-- The application code string `sendError` captures (`part_011` lines
39-46): the zero value `""` unless the error exposes `Code()`. -/
def errCode (e : ErrValue) : String :=
  match e.codeCap with
  | none => ""
  | some s => s

/-- JSON values occurring in the error envelope: strings and integers. -/
inductive JVal where
  | jstr (s : String)
  | jint (n : Int)
deriving DecidableEq, Repr

/-- One hexadecimal digit, lowercase, as emitted by Go `encoding/json`. -/
def hexDigit (n : Nat) : Char :=
  if n < 10 then Char.ofNat (48 + n) else Char.ofNat (87 + n)

/-- Escaping of one character inside a JSON string literal, following Go
`encoding/json` (HTML-escaping on, as under plain `json.Marshal`). -/
def jsonEscapeChar (c : Char) : List Char :=
  if c = '"' then ['\\', '"']
  else if c = '\\' then ['\\', '\\']
  else if c = '\n' then ['\\', 'n']
  else if c = '\r' then ['\\', 'r']
  else if c = '\t' then ['\\', 't']
  else if c.toNat < 0x20 then
    ['\\', 'u', '0', '0', hexDigit (c.toNat / 16), hexDigit (c.toNat % 16)]
  else if c = '<' then ['\\', 'u', '0', '0', '3', 'c']
  else if c = '>' then ['\\', 'u', '0', '0', '3', 'e']
  else if c = '&' then ['\\', 'u', '0', '0', '2', '6']
  else if c.toNat = 0x2028 then ['\\', 'u', '2', '0', '2', '8']
  else if c.toNat = 0x2029 then ['\\', 'u', '2', '0', '2', '9']
  else [c]

/-- A JSON string literal: quoted, characters escaped. -/
def jsonQuote (s : String) : String :=
  ⟨'"' :: s.data.foldr (fun c acc => jsonEscapeChar c ++ acc) ['"']⟩

/-- Serialization of one JSON value. -/
def serializeJVal : JVal → String
  | .jstr s => jsonQuote s
  | .jint n => toString n

/-- Serialization of a JSON object given its fields in key order; Go
`encoding/json` serializes a map with its keys sorted, so the field lists we
feed this are sorted by key. -/
def serializeFields (fields : List (String × JVal)) : String :=
  "\x7b" ++
    String.intercalate ","
      (fields.map (fun kv => jsonQuote kv.1 ++ ":" ++ serializeJVal kv.2)) ++
    "\x7d"

/-- The inner `"error"` object built by `sendError` (`part_011` lines
55-66), already in the sorted key order Go `json.Marshal` emits for a map:
always `message` and `status`; `code` only when the captured code string is
non-empty. -/
def errorFields (e : ErrValue) : List (String × JVal) :=
  let code := errCode e
  let base := [("message", JVal.jstr e.message),
               ("status", JVal.jint (errStatusCode e))]
  if code ≠ "" then ("code", JVal.jstr code) :: base else base

/-- `json.Marshal` of the envelope `map[string]map[string]interface` value
`resp`: the single outer key `"error"` holding the given inner fields. -/
def marshalResp (fields : List (String × JVal)) : String :=
  "\x7b\"error\":" ++ serializeFields fields ++ "\x7d"

/-- What a `http.ResponseWriter` records, in order: header deletions and
sets, the status line (`WriteHeader`), body writes. -/
inductive Op where
  | delHeader (k : String)
  | setHeader (k v : String)
  | writeHeader (status : Int)
  | write (body : String)
deriving DecidableEq, Repr

/-- `net/http`'s `http.Error(w, msg, status)`: plain-text content type,
nosniff, status line, then the message followed by a newline. -/
def httpError (msg : String) (status : Int) : List Op :=
  [Op.setHeader "Content-Type" "text/plain; charset=utf-8",
   Op.setHeader "X-Content-Type-Options" "nosniff",
   Op.writeHeader status,
   Op.write (msg ++ "\n")]

/-- `len(b)` for the marshalled body `b`, with `none` playing Go `nil`. -/
def bodyLen : Option String → Nat
  | none => 0
  | some s => s.utf8ByteSize

/-- `sendError` (`part_011` lines 29-84), parameterized over the outcome of
`json.Marshal` on the envelope so both the success and the failure branch of
`b, err = json.Marshal(resp); if err != nil` are in the model: compute the
status code, delete `Content-Encoding`, then either the JSON branch (headers,
`Content-Length` of the body, status line, body write only when marshalling
succeeded) or `http.Error`. -/
def sendErrorWith (marshal : List (String × JVal) → Option String)
    (r : Request) (e : ErrValue) : List Op :=
  let statusCode := errStatusCode e
  Op.delHeader "Content-Encoding" ::
    (if shouldSendJSON r then
      let b : Option String := marshal (errorFields e)
      [Op.setHeader "Content-Type" "application/json",
       Op.setHeader "X-Content-Type-Options" "nosniff",
       Op.setHeader "Content-Length" (toString (bodyLen b)),
       Op.writeHeader statusCode] ++
        (match b with
         | some body => [Op.write body]
         | none => [])
    else
      httpError e.message statusCode)

/-- `sendError` proper: `json.Marshal` on a map of strings and ints always
succeeds, producing the sorted-key serialization. -/
def sendError (r : Request) (e : ErrValue) : List Op :=
  sendErrorWith (fun fields => some (marshalResp fields)) r e

/-- A `context.Context` as this package produces them: the background
context, or a cancellable context obtained from `context.WithCancel` over a
parent. -/
inductive Ctx where
  | background
  | cancelScope (parent : Ctx)
deriving DecidableEq, Repr

/-- The context returned by `newContext` (`part_008` lines 37-67): a nil
parent is replaced by `context.Background()`, then `context.WithCancel`
wraps it; no deadline is attached. -/
def newContextCtx (parent : Option Ctx) : Ctx :=
  Ctx.cancelScope
    (match parent with
     | none => Ctx.background
     | some c => c)

/-- Observable events during one request: a request scope being created by
`newContext`, the deferred cancel of that scope after the inner handler
returned, and the pre/post logic of the caller-supplied middleware labelled
`n`. -/
inductive Event where
  | newScope (c : Ctx)
  | cancelScopeDone
  | pre (n : Nat)
  | post (n : Nat)
deriving DecidableEq, Repr

/-- A handler, shallowly: the trace of events it emits when run with a given
request context. -/
def Handler := Ctx → List Event

/-- The middleware values stored in this package's stacks: the
context-seeding closure made inside `Context(base)` (`part_008` lines
122-131), or a caller-supplied onion middleware with pre/post logic,
labelled by a number. -/
inductive PkgMid where
  | ctxSeed (base : Ctx)
  | user (n : Nat)
deriving DecidableEq, Repr

/-- Semantics of one middleware as a handler transformer.  `ctxSeed base`
ignores the supplied context, creates a fresh cancellable request context via
`newContext`, runs the inner handler with it, and cancels on return
(`defer cancel()`); `user n` runs its pre-logic, the inner handler, then its
post-logic. -/
def interpMid : PkgMid → Handler → Handler
  | .ctxSeed base, h => fun _ =>
      Event.newScope (newContextCtx (some base)) ::
        h (newContextCtx (some base)) ++ [Event.cancelScopeDone]
  | .user n, h => fun c => Event.pre n :: h c ++ [Event.post n]

/-- The `Stack` type of `part_008`: a node holds one middleware and a
pointer to the previous stack; `base m` is a node whose `previous` pointer
is nil. -/
inductive Stack (μ : Type) where
  | base (middleware : μ)
  | cons (middleware : μ) (previous : Stack μ)
deriving DecidableEq, Repr

/-- `Context(ctx)` (`part_008` lines 116-135): a one-node stack holding the
context-seeding middleware; a nil argument is replaced by
`context.Background()`. -/
def Context (ctx : Option Ctx) : Stack PkgMid :=
  Stack.base
    (PkgMid.ctxSeed
      (match ctx with
       | none => Ctx.background
       | some c => c))

/-- The shared push loop of `Use` and `Stack.Use`: each non-nil middleware
is pushed as a new head node whose `previous` is the stack so far; nil
entries are skipped.  Arguments are `Option μ` so a Go nil function value is
representable. -/
def pushAll {μ : Type} (s : Stack μ) (fs : List (Option μ)) : Stack μ :=
  fs.foldl
    (fun stack m =>
      match m with
      | none => stack
      | some mw => Stack.cons mw stack)
    s

/-- Package-level `Use` (`part_008` lines 138-151): start from
`Context(context.Background())`, then push the given middleware. -/
def Use (fs : List (Option PkgMid)) : Stack PkgMid :=
  pushAll (Context (some Ctx.background)) fs

/-- Method `Stack.Use` (`part_008` lines 155-168): push the given middleware
onto the receiver, returning the new stack; the receiver is not written to. -/
def Stack.Use {μ : Type} (s : Stack μ) (fs : List (Option μ)) : Stack μ :=
  pushAll s fs

/-- The wrapping loop of `Stack.Handle` (`part_008` lines 172-178):
`for stack := s; stack != nil; stack = stack.previous { h = stack.middleware(h) }`,
over an arbitrary interpretation of middleware as `H`-transformers. -/
def Stack.handleWrap {μ H : Type} (interp : μ → H → H) : Stack μ → H → H
  | .base m, h => interp m h
  | .cons m p, h => p.handleWrap interp (interp m h)

/-- The middleware chain of a stack, head (last pushed) first. -/
def Stack.chain {μ : Type} : Stack μ → List μ
  | .base m => [m]
  | .cons m p => m :: p.chain

/-- The middleware at the tail (first pushed, hence outermost once
`Stack.Handle` has run) of a stack. -/
def Stack.lastMid {μ : Type} : Stack μ → μ
  | .base m => m
  | .cons _ p => p.lastMid

/-- Wrapping a handler with a list of middleware, first element outermost. -/
def wrapAll {μ H : Type} (interp : μ → H → H) (fl : List μ) (h : H) : H :=
  fl.foldr (fun m hh => interp m hh) h

/-- The cancellation scope returned by `newContext` (`part_008` lines
37-67), reduced to its one piece of observable state: whether the
done-channel of the `context.WithCancel` context has been closed. -/
structure Scope where
  doneFired : Bool
deriving DecidableEq, Repr

/-- The scope as `newContext` returns it: not yet cancelled. -/
def scopeInit : Scope := { doneFired := false }

/-- Events acting on one scope: `release` is a call of the returned cancel
function; `closeNotify` is the transport close notification, upon which the
watcher goroutine calls the same cancel function; `tick` is the passage of
time. -/
inductive ScopeEvent where
  | release
  | closeNotify
  | tick
deriving DecidableEq, Repr

/-- Whether an event triggers cancellation: both `release` and
`closeNotify` funnel into the one `cancelFunc` of `context.WithCancel`;
`tick` does not, because `newContext` builds the context with
`context.WithCancel` — "create a context without a timeout" (`part_008`
line 46-47) — so no timer is ever armed. -/
def isTrigger : ScopeEvent → Bool
  | .release => true
  | .closeNotify => true
  | .tick => false

/-- One step of the scope: `context.WithCancel`'s cancel function closes
the done channel if it is not yet closed and otherwise does nothing, so the
state is monotone; time passage leaves it untouched. -/
def stepScope (s : Scope) (e : ScopeEvent) : Scope :=
  match e with
  | .release => { doneFired := true }
  | .closeNotify => { doneFired := true }
  | .tick => s

/-- The scope after a sequence of events, starting from a fresh scope. -/
def runScope (es : List ScopeEvent) : Scope :=
  es.foldl stepScope scopeInit

/-- How many times the done-signal fires (transitions unfired → fired)
along a run starting in state `s`. -/
def fireCount (s : Scope) : List ScopeEvent → Nat
  | [] => 0
  | e :: es =>
      (if !s.doneFired && (stepScope s e).doneFired then 1 else 0) +
        fireCount (stepScope s e) es

theorem doneFired_mono (s : Scope) (e : ScopeEvent)
    (h : s.doneFired = true) : (stepScope s e).doneFired = true := by
  cases e <;> simp [stepScope, h]

theorem fireCount_closed_form (s : Scope) (es : List ScopeEvent) :
    fireCount s es =
      if s.doneFired then 0 else (if es.any isTrigger then 1 else 0) := by
  induction es generalizing s with
  | nil => simp [fireCount]
  | cons e es ih =>
    rw [fireCount, ih]
    cases e <;> cases hs : s.doneFired <;>
      simp [stepScope, isTrigger, hs, List.any_cons]

theorem foldl_doneFired (s : Scope) (es : List ScopeEvent) :
    (es.foldl stepScope s).doneFired = (s.doneFired || es.any isTrigger) := by
  induction es generalizing s with
  | nil => simp
  | cons e es ih =>
    rw [List.foldl_cons, ih, List.any_cons]
    cases e <;> cases hs : s.doneFired <;> simp [stepScope, isTrigger, hs]

theorem any_isTrigger_iff (es : List ScopeEvent) :
    es.any isTrigger = true ↔
      ScopeEvent.release ∈ es ∨ ScopeEvent.closeNotify ∈ es := by
  rw [List.any_eq_true]
  constructor
  · rintro ⟨e, he, ht⟩
    cases e with
    | release => exact Or.inl he
    | closeNotify => exact Or.inr he
    | tick => simp [isTrigger] at ht
  · rintro (he | he)
    · exact ⟨_, he, rfl⟩
    · exact ⟨_, he, rfl⟩

theorem chain_pushAll {μ : Type} (fs : List (Option μ)) (s : Stack μ) :
    (pushAll s fs).chain = (fs.filterMap id).reverse ++ s.chain := by
  induction fs generalizing s with
  | nil => simp [pushAll]
  | cons om fs ih =>
    cases om with
    | none => simpa [pushAll, List.foldl_cons] using ih s
    | some m =>
      rw [pushAll, List.foldl_cons]
      show (pushAll (Stack.cons m s) fs).chain = _
      rw [ih]
      simp [Stack.chain]

theorem handleWrap_pushAll {μ H : Type} (interp : μ → H → H)
    (fs : List (Option μ)) (s : Stack μ) (h : H) :
    (pushAll s fs).handleWrap interp h =
      s.handleWrap interp (wrapAll interp (fs.filterMap id) h) := by
  induction fs generalizing s h with
  | nil => simp [pushAll, wrapAll]
  | cons om fs ih =>
    cases om with
    | none => simpa [pushAll, List.foldl_cons] using ih s h
    | some m =>
      rw [pushAll, List.foldl_cons]
      show (pushAll (Stack.cons m s) fs).handleWrap interp h = _
      rw [ih]
      simp [Stack.handleWrap, wrapAll]

theorem lastMid_pushAll {μ : Type} (fs : List (Option μ)) (s : Stack μ) :
    (pushAll s fs).lastMid = s.lastMid := by
  induction fs generalizing s with
  | nil => simp [pushAll]
  | cons om fs ih =>
    cases om with
    | none => simpa [pushAll, List.foldl_cons] using ih s
    | some m =>
      rw [pushAll, List.foldl_cons]
      show (pushAll (Stack.cons m s) fs).lastMid = _
      rw [ih]
      simp [Stack.lastMid]

/-- The status code carried by the first `WriteHeader` call in a trace. -/
def statusWritten : List Op → Option Int
  | [] => none
  | Op.writeHeader v :: _ => some v
  | Op.delHeader _ :: rest => statusWritten rest
  | Op.setHeader _ _ :: rest => statusWritten rest
  | Op.write _ :: rest => statusWritten rest

/-- C1: `shouldSendJSON` returns true iff the Accept header contains the
substring "application/json" or the URL path begins with "/api/"; in
particular it is false for (Accept="", Path="") and for (Accept="",
Path="/api"), and true for (Accept="", Path="/api/"),
(Accept="application/json", Path="") and (Accept="application/json",
Path="/api/"). -/
theorem shouldSendJSON_spec (r : Request) :
    (shouldSendJSON r = true ↔
      ("application/json".data <:+: r.accept.data ∨
        "/api/".data <+: r.path.data))
  ∧ shouldSendJSON ⟨"", ""⟩ = false
  ∧ shouldSendJSON ⟨"", "/api"⟩ = false
  ∧ shouldSendJSON ⟨"", "/api/"⟩ = true
  ∧ shouldSendJSON ⟨"application/json", ""⟩ = true
  ∧ shouldSendJSON ⟨"application/json", "/api/"⟩ = true := by
  refine ⟨?_, by decide, by decide, by decide, by decide, by decide⟩
  rw [shouldSendJSON, Bool.or_eq_true, containsSub_iff_occurs,
    isPrefixOf_eq_true_iff]

/-- C5: the status code `sendError` writes is 500 by default; a
`StatusCode()` capability reporting a non-zero value (even a non-standard
one such as 3) overrides it, and a reported zero falls back to 500. -/
theorem sendError_status_code (r : Request) (e : ErrValue) (v : Int) :
    statusWritten (sendError r e) = some (errStatusCode e)
  ∧ (e.statusCodeCap = none → errStatusCode e = 500)
  ∧ (e.statusCodeCap = some v →
      errStatusCode e = if v = 0 then 500 else v) := by
  refine ⟨?_, ?_, ?_⟩
  · rw [sendError, sendErrorWith]
    by_cases hj : shouldSendJSON r <;>
      simp [hj, httpError, statusWritten]
  · intro hn
    simp [errStatusCode, hn]
  · intro hv
    rw [errStatusCode, hv]
    by_cases h0 : v = 0 <;> simp [h0]

theorem sendError_status_code_witness :
    errStatusCode ⟨"", some 3, none⟩ = if (3 : Int) = 0 then 500 else 3 :=
  (sendError_status_code ⟨"", ""⟩ ⟨"", some 3, none⟩ 3).2.2 rfl

/-- C2: for a stack built by `Use` with middleware m1 (label `a`) then m2
(label `b`), both non-nil, `Handle`'s wrapping loop walks the chain from its
head (last pushed) toward its tail (first pushed), so the composed handler
is the context-seeding wrapper around m1 applied to m2 applied to the
terminal handler, and on a request the events run in the order: m1 pre, m2
pre, terminal, m2 post, m1 post. -/
theorem stack_handle_onion_order (a b : Nat) (t : Handler) :
    ((Use [some (.user a), some (.user b)]).handleWrap interpMid t
      = interpMid (.ctxSeed Ctx.background)
          (interpMid (.user a) (interpMid (.user b) t)))
  ∧ ∀ c : Ctx,
      (Use [some (.user a), some (.user b)]).handleWrap interpMid t c
        = Event.newScope (Ctx.cancelScope Ctx.background)
            :: Event.pre a :: Event.pre b
            :: (t (Ctx.cancelScope Ctx.background)
                ++ [Event.post b, Event.post a, Event.cancelScopeDone]) := by
  refine ⟨rfl, fun c => ?_⟩
  show Event.newScope _ ::
      (Event.pre a :: (Event.pre b :: t _ ++ [Event.post b]) ++ [Event.post a])
        ++ [Event.cancelScopeDone] = _
  simp [newContextCtx]

/-- C3: `Stack.Use` never mutates the receiver: the derived stack's chain
is the pushed middleware (in reverse push order) in front of the receiver's
chain, the receiver's chain is a shared suffix of the derived chain, and
composing a handler through the derived stack factors as the receiver's own
(unchanged) composition applied outside the newly pushed wrappers — so a
handler already composed from the receiver keeps its original ordering. -/
theorem stack_use_no_mutation {μ H : Type} (s : Stack μ)
    (fs : List (Option μ)) (interp : μ → H → H) (t : H) :
    ((s.Use fs).chain = (fs.filterMap id).reverse ++ s.chain)
  ∧ s.chain <:+ (s.Use fs).chain
  ∧ ((s.Use fs).handleWrap interp t =
      s.handleWrap interp (wrapAll interp (fs.filterMap id) t)) := by
  refine ⟨chain_pushAll fs s, ⟨(fs.filterMap id).reverse, (chain_pushAll fs s).symm⟩,
    handleWrap_pushAll interp fs s t⟩

/-- C10: every stack returned by package-level `Use` carries the
context-seeding middleware of `Context(context.Background())` at its tail
(the outermost position under `Handle`); `Use` with zero middleware, or only
nil middleware, still returns that base stack; `Stack.Use` preserves the
tail; and the context-seeding middleware creates a fresh cancellable request
context via `newContext` before invoking the inner handler and cancels it
when the handler returns. -/
theorem use_ctxSeed_at_tail (fs fs' : List (Option PkgMid)) (base : Ctx)
    (h : Handler) (c : Ctx) :
    ((Use fs).lastMid = PkgMid.ctxSeed Ctx.background)
  ∧ (((Use fs).Use fs').lastMid = PkgMid.ctxSeed Ctx.background)
  ∧ (Use [] = Context (some Ctx.background))
  ∧ (Use [none, none] = Context (some Ctx.background))
  ∧ (interpMid (PkgMid.ctxSeed base) h c
      = Event.newScope (newContextCtx (some base))
          :: h (newContextCtx (some base)) ++ [Event.cancelScopeDone]) := by
  refine ⟨?_, ?_, rfl, rfl, rfl⟩
  · rw [Use, lastMid_pushAll]
    rfl
  · rw [Stack.Use, lastMid_pushAll, Use, lastMid_pushAll]
    rfl

/-- C4: along any event sequence the scope's done-signal fires at most
once; it fires (exactly once) precisely when an explicit release or a
transport close notification occurs; a listener reading the done flag after
any prefix sees it set only after a trigger has actually occurred in that
prefix; and release is idempotent — a second release is a no-op on the state
and never re-fires the signal downstream. -/
theorem scope_done_fires_once (es es₂ : List ScopeEvent) (s : Scope)
    (k : Nat) :
    fireCount scopeInit es ≤ 1
  ∧ ((runScope es).doneFired = es.any isTrigger)
  ∧ (fireCount scopeInit es = 1 ↔
      (ScopeEvent.release ∈ es ∨ ScopeEvent.closeNotify ∈ es))
  ∧ (stepScope (stepScope s .release) .release = stepScope s .release)
  ∧ (fireCount scopeInit (es ++ ScopeEvent.release :: ScopeEvent.release :: es₂)
      = fireCount scopeInit (es ++ ScopeEvent.release :: es₂))
  ∧ ((runScope (es.take k)).doneFired = true →
      ScopeEvent.release ∈ es.take k ∨ ScopeEvent.closeNotify ∈ es.take k) := by
  refine ⟨?_, ?_, ?_, rfl, ?_, ?_⟩
  · rw [fireCount_closed_form]
    by_cases ha : es.any isTrigger <;> simp [scopeInit, ha]
  · rw [runScope, foldl_doneFired]
    simp [scopeInit]
  · rw [fireCount_closed_form, ← any_isTrigger_iff]
    by_cases ha : es.any isTrigger <;> simp [scopeInit, ha]
  · rw [fireCount_closed_form, fireCount_closed_form]
    simp [scopeInit, List.any_append, isTrigger]
  · intro hdone
    rw [runScope, foldl_doneFired, scopeInit] at hdone
    simp only [Bool.false_or] at hdone
    exact (any_isTrigger_iff _).mp hdone

theorem scope_done_fires_once_witness :
    ScopeEvent.release ∈ ([ScopeEvent.tick, ScopeEvent.release].take 2)
  ∨ ScopeEvent.closeNotify ∈ ([ScopeEvent.tick, ScopeEvent.release].take 2) :=
  (scope_done_fires_once [ScopeEvent.tick, ScopeEvent.release] [] scopeInit
    2).2.2.2.2.2 (by decide)

/-- C9: `newContext` attaches no deadline of its own: a scope subjected
only to the passage of time never fires its done-signal, a single time step
leaves the scope state untouched, and whenever the done-signal has fired,
an explicit release or a transport close notification occurred. -/
theorem scope_no_default_deadline (es : List ScopeEvent) (s : Scope) :
    ((∀ e ∈ es, e = ScopeEvent.tick) → (runScope es).doneFired = false)
  ∧ (stepScope s ScopeEvent.tick = s)
  ∧ ((runScope es).doneFired = true →
      ScopeEvent.release ∈ es ∨ ScopeEvent.closeNotify ∈ es) := by
  refine ⟨?_, rfl, ?_⟩
  · intro hall
    rw [runScope, foldl_doneFired, scopeInit]
    simp only [Bool.false_or, List.any_eq_false]
    intro e he
    rw [hall e he]
    decide
  · intro hdone
    rw [runScope, foldl_doneFired, scopeInit] at hdone
    simp only [Bool.false_or] at hdone
    exact (any_isTrigger_iff _).mp hdone

theorem scope_no_default_deadline_witness :
    (runScope [ScopeEvent.tick, ScopeEvent.tick]).doneFired = false :=
  (scope_no_default_deadline [ScopeEvent.tick, ScopeEvent.tick]
    scopeInit).1 (by decide)

/-- C6 (claim as stated is refuted): an error value that does expose the
`Code()` capability but reports the empty string — here
`ErrValue.mk "m" none (some "")` — renders an envelope with no `code` field
at all, although the claim promises a `code` field carrying that string
whenever the capability is exposed. -/
theorem code_field_counterexample :
    (ErrValue.mk "m" none (some "")).codeCap.isSome = true
  ∧ "code" ∉ (errorFields ⟨"m", none, some ""⟩).map Prod.fst
  ∧ containsSub (marshalResp (errorFields ⟨"m", none, some ""⟩)).data
      "\"code\"".data = false := by
  refine ⟨rfl, by decide, by decide⟩

/-- C6 (amended): the rendered envelope contains a `code` field carrying
the reported string iff the failure exposes the `Code()` capability and
that string is non-empty; when the capability is absent — or reports the
empty string — the field is omitted entirely. -/
theorem code_field_amended (e : ErrValue) (s : String) :
    (e.codeCap = some s → s ≠ "" → ("code", JVal.jstr s) ∈ errorFields e)
  ∧ ((e.codeCap = none ∨ e.codeCap = some "") →
      "code" ∉ (errorFields e).map Prod.fst)
  ∧ (e.codeCap = none → errCode e = "") := by
  refine ⟨?_, ?_, ?_⟩
  · intro hs hne
    simp [errorFields, errCode, hs, hne]
  · rintro (hn | hn) <;> simp [errorFields, errCode, hn]
  · intro hn
    simp [errCode, hn]

theorem code_field_amended_witness :
    ("code", JVal.jstr "xyz") ∈ errorFields ⟨"", none, some "xyz"⟩
  ∧ "code" ∉ (errorFields ⟨"", none, some ""⟩).map Prod.fst :=
  ⟨(code_field_amended ⟨"", none, some "xyz"⟩ "xyz").1 rfl (by decide),
   (code_field_amended ⟨"", none, some ""⟩ "").2.1 (Or.inr rfl)⟩

/-- C7: under JSON negotiation, with serialization succeeding (as it always
does for this envelope of strings and integers), `sendError` emits exactly:
delete Content-Encoding, set Content-Type "application/json", set
"X-Content-Type-Options: nosniff", set Content-Length to the exact byte
length of the serialized body, write the status line, then write the body
`{"error":{...}}` — whose fields, in Go's sorted-map-key order, are `code`
(only when present), then always `message` and `status`. -/
theorem sendError_json_success (r : Request) (e : ErrValue)
    (hj : shouldSendJSON r = true) :
    (sendError r e =
      [Op.delHeader "Content-Encoding",
       Op.setHeader "Content-Type" "application/json",
       Op.setHeader "X-Content-Type-Options" "nosniff",
       Op.setHeader "Content-Length"
         (toString (marshalResp (errorFields e)).utf8ByteSize),
       Op.writeHeader (errStatusCode e),
       Op.write (marshalResp (errorFields e))])
  ∧ ("message", JVal.jstr e.message) ∈ errorFields e
  ∧ ("status", JVal.jint (errStatusCode e)) ∈ errorFields e
  ∧ ((errorFields e).map Prod.fst =
      if errCode e ≠ "" then ["code", "message", "status"]
      else ["message", "status"]) := by
  refine ⟨?_, ?_, ?_, ?_⟩
  · rw [sendError, sendErrorWith]
    simp [hj, bodyLen]
  · by_cases hc : errCode e ≠ "" <;> simp [errorFields, hc]
  · by_cases hc : errCode e ≠ "" <;> simp [errorFields, hc]
  · by_cases hc : errCode e ≠ "" <;> simp [errorFields, hc]

theorem sendError_json_success_witness :
    sendError ⟨"application/json", ""⟩ ⟨"", none, some "418 teapot"⟩ =
      [Op.delHeader "Content-Encoding",
       Op.setHeader "Content-Type" "application/json",
       Op.setHeader "X-Content-Type-Options" "nosniff",
       Op.setHeader "Content-Length" "57",
       Op.writeHeader 500,
       Op.write
         "\x7b\"error\":\x7b\"code\":\"418 teapot\",\"message\":\"\",\"status\":500\x7d\x7d"] := by
  rw [(sendError_json_success ⟨"application/json", ""⟩
    ⟨"", none, some "418 teapot"⟩ (by decide)).1]
  decide

/-- C8: under JSON negotiation, when `json.Marshal` of the envelope fails
(`b` left nil), `sendError` still sets the JSON headers with Content-Length
0 and writes the status line, but performs no body write; the renderer
returns no error to its caller, the trace above being its entire effect. -/
theorem sendError_marshal_failure (r : Request) (e : ErrValue)
    (hj : shouldSendJSON r = true) :
    (sendErrorWith (fun _ => none) r e =
      [Op.delHeader "Content-Encoding",
       Op.setHeader "Content-Type" "application/json",
       Op.setHeader "X-Content-Type-Options" "nosniff",
       Op.setHeader "Content-Length" "0",
       Op.writeHeader (errStatusCode e)])
  ∧ statusWritten (sendErrorWith (fun _ => none) r e)
      = some (errStatusCode e)
  ∧ ∀ body, Op.write body ∉ sendErrorWith (fun _ => none) r e := by
  have hops : sendErrorWith (fun _ => none) r e =
      [Op.delHeader "Content-Encoding",
       Op.setHeader "Content-Type" "application/json",
       Op.setHeader "X-Content-Type-Options" "nosniff",
       Op.setHeader "Content-Length" "0",
       Op.writeHeader (errStatusCode e)] := by
    rw [sendErrorWith]
    simp only [hj, if_true, bodyLen]
    rfl
  refine ⟨hops, ?_, ?_⟩
  · rw [hops]
    simp [statusWritten]
  · intro body
    rw [hops]
    simp

theorem sendError_marshal_failure_witness :
    statusWritten
        (sendErrorWith (fun _ => none) ⟨"application/json", ""⟩
          ⟨"boom", none, none⟩)
      = some (errStatusCode ⟨"boom", none, none⟩) :=
  (sendError_marshal_failure ⟨"application/json", ""⟩ ⟨"boom", none, none⟩
    (by decide)).2.1
